import Mathlib

/-!
Shallow embedding of `src/evaluation/eval_model.py` from the
Time-Series-Smoothing repository.

The source computes seven regression metrics (R2, MAE, MSE, RMSE, RMSLE,
MAPE, SMAPE) for a pair of numeric arrays, via numpy / sklearn calls.
Floating-point values are modelled as exact reals extended with the IEEE
special values (`+inf`, `-inf`, `nan`); arithmetic that cannot produce a
special value is carried out directly on `ℝ`, while the element-wise
divisions of `_mape` / `_smape` (which the source lets run into 0-division)
go through the extended type `F` below.

The sklearn metric functions called by `eval_metric` are embedded from
their library semantics:
  * every metric first validates the inputs (`check_consistent_length`,
    `check_array` with `ensure_min_samples=1`), so mismatched lengths and
    empty inputs raise — these are the `ShapeMismatch` / `EmptyInput`
    error kinds, hoisted into guards of `eval_metric`;
  * `r2_score` returns NaN for fewer than two samples, `1.0` when the
    residual sum is zero, `0.0` when the residual sum is nonzero but the
    total sum of squares is zero, and `1 - SS_res/SS_tot` otherwise;
  * `mean_squared_log_error` raises `ValueError` when any target is
    negative (modelled as the `negativeLogInput` error kind) and otherwise
    averages squared differences of `log1p` values.
-/

/-- IEEE-style extended value: a finite real, `+∞`, `-∞`, or NaN. -/
inductive F where
  | fin (x : ℝ)
  | inf
  | ninf
  | nan

/-- Division of two finite reals under IEEE rules (numpy element-wise `/`):
a zero denominator yields NaN for `0/0` and a signed infinity otherwise. -/
noncomputable def rdiv (a b : ℝ) : F :=
  if b = 0 then
    if a = 0 then F.nan else if 0 < a then F.inf else F.ninf
  else F.fin (a / b)

/-- `np.abs` on an extended value. -/
def fabs : F → F
  | F.fin x => F.fin |x|
  | F.inf => F.inf
  | F.ninf => F.inf
  | F.nan => F.nan

/-- IEEE addition on extended values (NaN absorbing, `∞ + (-∞) = NaN`). -/
def fadd : F → F → F
  | F.nan, _ => F.nan
  | _, F.nan => F.nan
  | F.inf, F.ninf => F.nan
  | F.ninf, F.inf => F.nan
  | F.inf, _ => F.inf
  | F.fin _, F.inf => F.inf
  | F.ninf, _ => F.ninf
  | F.fin _, F.ninf => F.ninf
  | F.fin a, F.fin b => F.fin (a + b)

/-- `np.sum` over extended values. -/
def fsum (l : List F) : F := l.foldl fadd (F.fin 0)

/-- IEEE multiplication on extended values (`∞ * 0 = NaN`). -/
noncomputable def fmul : F → F → F
  | F.nan, _ => F.nan
  | _, F.nan => F.nan
  | F.inf, F.inf => F.inf
  | F.inf, F.ninf => F.ninf
  | F.ninf, F.inf => F.ninf
  | F.ninf, F.ninf => F.inf
  | F.inf, F.fin b => if b = 0 then F.nan else if 0 < b then F.inf else F.ninf
  | F.fin a, F.inf => if a = 0 then F.nan else if 0 < a then F.inf else F.ninf
  | F.ninf, F.fin b => if b = 0 then F.nan else if 0 < b then F.ninf else F.inf
  | F.fin a, F.ninf => if a = 0 then F.nan else if 0 < a then F.ninf else F.inf
  | F.fin a, F.fin b => F.fin (a * b)

/-- IEEE division on extended values. -/
noncomputable def fdiv : F → F → F
  | F.nan, _ => F.nan
  | _, F.nan => F.nan
  | F.inf, F.inf => F.nan
  | F.inf, F.ninf => F.nan
  | F.ninf, F.inf => F.nan
  | F.ninf, F.ninf => F.nan
  | F.inf, F.fin b => if b < 0 then F.ninf else F.inf
  | F.ninf, F.fin b => if b < 0 then F.inf else F.ninf
  | F.fin _, F.inf => F.fin 0
  | F.fin _, F.ninf => F.fin 0
  | F.fin a, F.fin b => rdiv a b

/-- `np.mean` over extended values: sum divided by length. -/
noncomputable def fmean (l : List F) : F := fdiv (fsum l) (F.fin l.length)

/-- Error kinds surfaced by `eval_metric`.  `shapeMismatch` and
`emptyInput` come from sklearn input validation; `negativeLogInput` is the
`ValueError` of `mean_squared_log_error` on negative targets. -/
inductive EvalError where
  | shapeMismatch
  | emptyInput
  | negativeLogInput
deriving DecidableEq

/-- `_mape(true, pred)`: `np.mean(np.abs((true - pred) / true)) * 100`. -/
noncomputable def _mape (t p : List ℝ) : F :=
  fmul (fmean (List.zipWith (fun a b => fabs (rdiv (a - b) a)) t p)) (F.fin 100)

/-- `_smape(true, pred)`:
`100/len(true) * np.sum(2 * np.abs(pred - true) / (np.abs(pred) + np.abs(true)))`. -/
noncomputable def _smape (t p : List ℝ) : F :=
  fmul (F.fin (100 / (t.length : ℝ)))
    (fsum (List.zipWith (fun a b => rdiv (2 * |b - a|) (|b| + |a|)) t p))

/-- sklearn `mean_absolute_error`: mean of `|true_i - pred_i|`. -/
noncomputable def mean_absolute_error (t p : List ℝ) : ℝ :=
  (List.zipWith (fun a b => |a - b|) t p).sum / (t.length : ℝ)

/-- sklearn `mean_squared_error` with the `squared` flag: mean of squared
differences, or its square root when `squared` is false. -/
noncomputable def mean_squared_error (t p : List ℝ) (squared : Bool) : ℝ :=
  let m := (List.zipWith (fun a b => (a - b) ^ 2) t p).sum / (t.length : ℝ)
  if squared then m else Real.sqrt m

/-- sklearn `r2_score` after validation: NaN for fewer than two samples,
`1.0` when `SS_res = 0`, `0.0` when `SS_res ≠ 0` but `SS_tot = 0`
(the constant-truth degenerate case is forced to a finite score), else
`1 - SS_res/SS_tot`. -/
noncomputable def r2_score (t p : List ℝ) : F :=
  if t.length < 2 then F.nan
  else
    let num := (List.zipWith (fun a b => (a - b) ^ 2) t p).sum
    let den := (t.map (fun a => (a - t.sum / (t.length : ℝ)) ^ 2)).sum
    if num = 0 then F.fin 1
    else if den = 0 then F.fin 0
    else F.fin (1 - num / den)

/-- sklearn `mean_squared_log_error`: raises on any negative target,
otherwise the mean of `(log1p true_i - log1p pred_i)^2`. -/
noncomputable def mean_squared_log_error (t p : List ℝ) : Except EvalError ℝ :=
  if (∃ x ∈ t, x < 0) ∨ (∃ x ∈ p, x < 0) then .error .negativeLogInput
  else .ok ((List.zipWith
    (fun a b => (Real.log (1 + a) - Real.log (1 + b)) ^ 2) t p).sum / (t.length : ℝ))

/-- The RMSLE block of `eval_metric`: mask `(true >= 0) & (pred >= 0)`,
keep the masked samples, and when at least one sample survives take
`np.sqrt(mean_squared_log_error(...))` on them, else `np.nan`. -/
noncomputable def rmsle_of (t p : List ℝ) : Except EvalError F :=
  let pairs := (t.zip p).filter (fun q => decide (0 ≤ q.1) && decide (0 ≤ q.2))
  if pairs.length ≠ 0 then
    match mean_squared_log_error (pairs.map Prod.fst) (pairs.map Prod.snd) with
    | .ok m => .ok (F.fin (Real.sqrt m))
    | .error e => .error e
  else .ok F.nan

/-- `eval_metric(true, pred)`: the returned single-row DataFrame is
modelled as its list of `(column name, value)` pairs in column order.
The two validation guards are the sklearn input validation performed by
the first metric call (`check_consistent_length`, then `check_array` with
`ensure_min_samples=1`). -/
noncomputable def eval_metric (t p : List ℝ) :
    Except EvalError (List (String × F)) :=
  if t.length ≠ p.length then .error .shapeMismatch
  else if t.length = 0 then .error .emptyInput
  else
    match rmsle_of t p with
    | .error e => .error e
    | .ok rmsle =>
      .ok [("R2", r2_score t p),
           ("MAE", F.fin (mean_absolute_error t p)),
           ("MSE", F.fin (mean_squared_error t p true)),
           ("RMSE", F.fin (mean_squared_error t p false)),
           ("RMSLE", rmsle),
           ("MAPE", _mape t p),
           ("SMAPE", _smape t p)]

/-- DataFrame column access `result[name]` on an `eval_metric` outcome. -/
def fieldOf (r : Except EvalError (List (String × F))) (k : String) :
    Option F :=
  match r with
  | .ok l => l.lookup k
  | .error _ => none

/-- The column-name list of an `eval_metric` outcome. -/
def columnsOf (r : Except EvalError (List (String × F))) :
    Option (List String) :=
  match r with
  | .ok l => some (l.map Prod.fst)
  | .error _ => none

/-- Whether the call returned a record rather than raising. -/
def isOkE (r : Except EvalError (List (String × F))) : Bool :=
  match r with
  | .ok _ => true
  | .error _ => false

/-! ### Supporting lemmas -/

/-- The value computed by the RMSLE block when it does not raise: NaN when
the mask keeps no sample, else the root of the mean squared `log1p`
difference over the kept samples. -/
noncomputable def rmsleVal (t p : List ℝ) : F :=
  let pairs := (t.zip p).filter (fun q => decide (0 ≤ q.1) && decide (0 ≤ q.2))
  if pairs.length ≠ 0 then
    F.fin (Real.sqrt
      ((List.zipWith (fun a b => (Real.log (1 + a) - Real.log (1 + b)) ^ 2)
          (pairs.map Prod.fst) (pairs.map Prod.snd)).sum /
        ((pairs.map Prod.fst).length : ℝ)))
  else F.nan

lemma msle_ok (t p : List ℝ) (h1 : ∀ x ∈ t, 0 ≤ x) (h2 : ∀ x ∈ p, 0 ≤ x) :
    mean_squared_log_error t p = .ok
      ((List.zipWith
        (fun a b => (Real.log (1 + a) - Real.log (1 + b)) ^ 2) t p).sum /
        (t.length : ℝ)) := by
  unfold mean_squared_log_error
  rw [if_neg]
  push_neg
  exact ⟨fun x hx => h1 x hx, fun x hx => h2 x hx⟩

lemma mem_rmslePairs {t p : List ℝ} {q : ℝ × ℝ}
    (hq : q ∈ (t.zip p).filter (fun q => decide (0 ≤ q.1) && decide (0 ≤ q.2))) :
    0 ≤ q.1 ∧ 0 ≤ q.2 := by
  have h := (List.mem_filter.mp hq).2
  simpa [Bool.and_eq_true, decide_eq_true_eq] using h

lemma rmsle_of_eq (t p : List ℝ) : rmsle_of t p = .ok (rmsleVal t p) := by
  unfold rmsle_of rmsleVal
  set pairs := (t.zip p).filter (fun q => decide (0 ≤ q.1) && decide (0 ≤ q.2))
    with hpairs
  by_cases h : pairs.length ≠ 0
  · rw [if_pos h, if_pos h,
      msle_ok (pairs.map Prod.fst) (pairs.map Prod.snd)
        (by
          intro x hx
          rcases List.mem_map.mp hx with ⟨q, hq, rfl⟩
          exact (mem_rmslePairs hq).1)
        (by
          intro x hx
          rcases List.mem_map.mp hx with ⟨q, hq, rfl⟩
          exact (mem_rmslePairs hq).2)]
  · rw [if_neg h, if_neg h]

lemma eval_metric_eq_ok (t p : List ℝ) (h1 : t.length = p.length)
    (h2 : t.length ≠ 0) :
    eval_metric t p = .ok
      [("R2", r2_score t p),
       ("MAE", F.fin (mean_absolute_error t p)),
       ("MSE", F.fin (mean_squared_error t p true)),
       ("RMSE", F.fin (mean_squared_error t p false)),
       ("RMSLE", rmsleVal t p),
       ("MAPE", _mape t p),
       ("SMAPE", _smape t p)] := by
  unfold eval_metric
  rw [if_neg (by simp [h1]), if_neg h2, rmsle_of_eq]

lemma fieldOf_eval (t p : List ℝ) (h1 : t.length = p.length)
    (h2 : t.length ≠ 0) :
    fieldOf (eval_metric t p) "R2" = some (r2_score t p) ∧
    fieldOf (eval_metric t p) "MAE" = some (F.fin (mean_absolute_error t p)) ∧
    fieldOf (eval_metric t p) "MSE" =
      some (F.fin (mean_squared_error t p true)) ∧
    fieldOf (eval_metric t p) "RMSE" =
      some (F.fin (mean_squared_error t p false)) ∧
    fieldOf (eval_metric t p) "RMSLE" = some (rmsleVal t p) ∧
    fieldOf (eval_metric t p) "MAPE" = some (_mape t p) ∧
    fieldOf (eval_metric t p) "SMAPE" = some (_smape t p) := by
  rw [eval_metric_eq_ok t p h1 h2]
  refine ⟨?_, ?_, ?_, ?_, ?_, ?_, ?_⟩ <;> simp [fieldOf, List.lookup]

/-! ### Claim theorems -/

/-- C1: `eval_metric` fails with `ShapeMismatch` exactly when the two
sequences differ in length, with `EmptyInput` exactly when the lengths
agree and are zero, and in every other case it returns a record — these
are the only error conditions, so in particular the `negativeLogInput`
`ValueError` of the log-error routine is never surfaced. -/
theorem eval_metric_error_taxonomy : ∀ t p : List ℝ,
    (eval_metric t p = .error .shapeMismatch ↔ t.length ≠ p.length) ∧
    (eval_metric t p = .error .emptyInput ↔
      t.length = p.length ∧ t.length = 0) ∧
    (isOkE (eval_metric t p) = true ↔ t.length = p.length ∧ t.length ≠ 0) := by
  intro t p
  by_cases hne : t.length = p.length
  · by_cases h0 : t.length = 0
    · have : eval_metric t p = .error .emptyInput := by
        unfold eval_metric
        rw [if_neg (by simp [hne]), if_pos h0]
      rw [this]
      simp only [isOkE, hne, h0]
      simp [hne.symm.trans h0]
    · rw [eval_metric_eq_ok t p hne h0]
      simp [isOkE, hne, h0]
      intro hp
      exact h0 (hne.trans (hp ▸ rfl))
  · have : eval_metric t p = .error .shapeMismatch := by
      unfold eval_metric
      rw [if_pos hne]
    rw [this]
    simp [isOkE, hne]

lemma zipWith_map_pair (l : List (ℝ × ℝ)) (f : ℝ → ℝ → ℝ) :
    List.zipWith f (l.map Prod.fst) (l.map Prod.snd) =
      l.map (fun q => f q.1 q.2) := by
  rw [List.zipWith_map, List.zipWith_same]

/-- The spec's RMSLE definition, stated in its own words: over the subset
`S` of indices with `truth_i ≥ 0` and `pred_i ≥ 0`, NaN when `S` is empty
and `sqrt(mean_{i ∈ S} (ln(1+truth_i) - ln(1+pred_i))²)` otherwise. -/
noncomputable def rmsle_spec (t p : List ℝ) : F :=
  let S := (t.zip p).filter (fun q => decide (0 ≤ q.1) && decide (0 ≤ q.2))
  if S.length = 0 then F.nan
  else F.fin (Real.sqrt
    ((S.map (fun q => (Real.log (1 + q.1) - Real.log (1 + q.2)) ^ 2)).sum /
      (S.length : ℝ)))

lemma rmsleVal_eq_spec (t p : List ℝ) : rmsleVal t p = rmsle_spec t p := by
  unfold rmsleVal rmsle_spec
  set S := (t.zip p).filter (fun q => decide (0 ≤ q.1) && decide (0 ≤ q.2))
    with hS
  by_cases h : S.length = 0
  · rw [if_neg (by simpa using h), if_pos h]
  · rw [if_pos h, if_neg h, zipWith_map_pair, List.length_map]

/-- C2: for equal-length non-empty inputs the RMSLE field is computed only
over the subset `S` of pairs with both values non-negative — NaN when `S`
is empty, and otherwise the root of the mean squared difference of
`ln(1+·)` values over `S` — with the other indices silently dropped. -/
theorem eval_metric_rmsle_conditional (t p : List ℝ)
    (h1 : t.length = p.length) (h2 : t.length ≠ 0) :
    fieldOf (eval_metric t p) "RMSLE" = some (rmsle_spec t p) := by
  rw [(fieldOf_eval t p h1 h2).2.2.2.2.1, rmsleVal_eq_spec]

/-- Witness for C2 at `truth = [-1, 2]`, `pred = [1, 2]`. -/
theorem eval_metric_rmsle_conditional_app :
    fieldOf (eval_metric [-1, 2] [1, 2]) "RMSLE" =
      some (rmsle_spec [-1, 2] [1, 2]) :=
  eval_metric_rmsle_conditional [-1, 2] [1, 2] (by simp) (by simp)

/-- C3: for equal-length non-empty inputs the record holds exactly the
seven columns `R2, MAE, MSE, RMSE, RMSLE, MAPE, SMAPE`, in this order. -/
theorem eval_metric_columns (t p : List ℝ)
    (h1 : t.length = p.length) (h2 : t.length ≠ 0) :
    columnsOf (eval_metric t p) =
      some ["R2", "MAE", "MSE", "RMSE", "RMSLE", "MAPE", "SMAPE"] := by
  rw [eval_metric_eq_ok t p h1 h2]
  simp [columnsOf]

/-- Witness for C3 at `truth = [1]`, `pred = [2]`. -/
theorem eval_metric_columns_app :
    columnsOf (eval_metric [1] [2]) =
      some ["R2", "MAE", "MSE", "RMSE", "RMSLE", "MAPE", "SMAPE"] :=
  eval_metric_columns [1] [2] (by simp) (by simp)

/-- C10: the RMSLE block never raises — the mask keeps only pairs with
both values non-negative, so the negative-target branch of the log-error
routine is unreachable, and an empty masked subset is mapped to NaN. -/
theorem rmsle_block_safe : ∀ t p : List ℝ,
    rmsle_of t p = .ok (rmsleVal t p) ∧
    (((t.zip p).filter
        (fun q => decide (0 ≤ q.1) && decide (0 ≤ q.2))).length = 0 →
      rmsle_of t p = .ok F.nan) := by
  intro t p
  refine ⟨rmsle_of_eq t p, fun h => ?_⟩
  rw [rmsle_of_eq t p]
  unfold rmsleVal
  rw [if_neg (by simpa using h)]

/-- Witness for C10: at `truth = [-1]`, `pred = [0]` the mask drops the
only sample and the block returns NaN without raising. -/
theorem rmsle_block_safe_app : rmsle_of [-1] [0] = .ok F.nan :=
  (rmsle_block_safe [-1] [0]).2
    (by norm_num [List.zip, List.zipWith, List.filter])

/-- C4 counterexample: for the constant truth `[5, 5]` against `[3, 4]`
the R2 field is the finite value `0.0`, not NaN and not a signed
infinity — sklearn's `r2_score` forces the zero-`SS_tot` case to `0.0`. -/
theorem r2_constant_truth_cex :
    fieldOf (eval_metric [5, 5] [3, 4]) "R2" = some (F.fin 0) ∧
    F.fin 0 ≠ F.nan ∧ F.fin 0 ≠ F.inf ∧ F.fin 0 ≠ F.ninf := by
  refine ⟨?_, by simp, by simp, by simp⟩
  rw [(fieldOf_eval [5, 5] [3, 4] (by simp) (by simp)).1]
  norm_num [r2_score, List.zipWith]

lemma mean_of_constant (t : List ℝ) (c : ℝ) (h0 : t.length ≠ 0)
    (hc : ∀ a ∈ t, a = c) : t.sum / (t.length : ℝ) = c := by
  have hs : t.sum = t.length • c := List.sum_eq_card_nsmul t c hc
  have hn : (t.length : ℝ) ≠ 0 := Nat.cast_ne_zero.mpr h0
  rw [hs, nsmul_eq_mul, mul_comm, mul_div_assoc, div_self hn, mul_one]

lemma ss_tot_of_constant (t : List ℝ) (c : ℝ) (h0 : t.length ≠ 0)
    (hc : ∀ a ∈ t, a = c) :
    (t.map (fun a => (a - t.sum / (t.length : ℝ)) ^ 2)).sum = 0 := by
  refine List.sum_eq_zero ?_
  intro x hx
  rcases List.mem_map.mp hx with ⟨a, ha, rfl⟩
  rw [mean_of_constant t c h0 hc, hc a ha, sub_self]
  ring

/-- C4, amended: for a constant truth sequence the call still returns a
record, but the R2 field is never a division artefact: it is NaN exactly
when there are fewer than two samples, and for two or more samples
sklearn's degenerate-case rule yields the finite score `1.0` when
`SS_res = 0` and `0.0` otherwise. -/
theorem r2_constant_truth (t p : List ℝ) (h1 : t.length = p.length)
    (h2 : t.length ≠ 0) (c : ℝ) (hc : ∀ a ∈ t, a = c) :
    fieldOf (eval_metric t p) "R2" = some (r2_score t p) ∧
    (t.length < 2 → r2_score t p = F.nan) ∧
    (2 ≤ t.length →
      r2_score t p =
        if (List.zipWith (fun a b => (a - b) ^ 2) t p).sum = 0 then F.fin 1
        else F.fin 0) := by
  refine ⟨(fieldOf_eval t p h1 h2).1, fun hlt => ?_, fun hge => ?_⟩
  · unfold r2_score
    rw [if_pos hlt]
  · unfold r2_score
    rw [if_neg (by omega)]
    by_cases hnum : (List.zipWith (fun a b => (a - b) ^ 2) t p).sum = 0
    · simp only [hnum, if_pos rfl, if_true]
    · rw [if_neg hnum, if_pos (ss_tot_of_constant t c h2 hc), if_neg hnum]

/-- Witness for the amended C4 at `truth = [5, 5]`, `pred = [3, 4]`. -/
theorem r2_constant_truth_app :
    fieldOf (eval_metric [5, 5] [3, 4]) "R2" =
      some (r2_score [5, 5] [3, 4]) ∧
    ((5 : ℝ) - 3) ^ 2 + (((5 : ℝ) - 4) ^ 2 + 0) ≠ 0 := by
  refine ⟨(r2_constant_truth [5, 5] [3, 4] (by simp) (by simp) 5
    (by intro a ha; simpa using (by simpa using ha))).1, by norm_num⟩

lemma fmul_fdiv_hundred (s : F) (n : ℝ) (hn : 0 < n) :
    fmul (fdiv s (F.fin n)) (F.fin 100) = fmul (F.fin (100 / n)) s := by
  have h100 : (0 : ℝ) < 100 / n := by positivity
  cases s
  case fin a =>
    simp [fdiv, fmul, rdiv, hn.ne']
    field_simp
    ring
  all_goals simp [fdiv, fmul, rdiv, hn.ne', not_lt.mpr hn.le, h100, h100.ne']

/-- The spec's MAPE formula in its own words:
`(100/N) * Σ |(truth_i - pred_i)/truth_i|` with element-wise IEEE division
and no filtering. -/
noncomputable def mape_spec (t p : List ℝ) : F :=
  fmul (F.fin (100 / (t.length : ℝ)))
    (fsum (List.zipWith (fun a b => fabs (rdiv (a - b) a)) t p))

/-- The spec's SMAPE formula in its own words:
`(100/N) * Σ 2|pred_i - truth_i| / (|pred_i| + |truth_i|)` with
element-wise IEEE division and no filtering. -/
noncomputable def smape_spec (t p : List ℝ) : F :=
  fmul (F.fin (100 / (t.length : ℝ)))
    (fsum (List.zipWith (fun a b => rdiv (2 * |b - a|) (|b| + |a|)) t p))

lemma mape_eq_spec (t p : List ℝ) (h1 : t.length = p.length)
    (h2 : t.length ≠ 0) : _mape t p = mape_spec t p := by
  unfold _mape mape_spec fmean
  have hlen : (List.zipWith (fun a b => fabs (rdiv (a - b) a)) t p).length
      = t.length := by
    rw [List.length_zipWith, h1, min_self]
  rw [hlen, fmul_fdiv_hundred _ _ (by positivity)]

/-- C5: for equal-length non-empty inputs the MAPE field equals
`(100/N) * Σ |(truth_i - pred_i)/truth_i|` with element-wise division and
no special-casing, and in particular at `truth = pred = [0, 2]` the 0/0
term at index 0 propagates so the whole MAPE field is NaN, not an error. -/
theorem mape_field_formula :
    (∀ t p : List ℝ, t.length = p.length → t.length ≠ 0 →
      fieldOf (eval_metric t p) "MAPE" = some (mape_spec t p)) ∧
    fieldOf (eval_metric [0, 2] [0, 2]) "MAPE" = some F.nan := by
  constructor
  · intro t p h1 h2
    rw [(fieldOf_eval t p h1 h2).2.2.2.2.2.1, mape_eq_spec t p h1 h2]
  · rw [(fieldOf_eval [0, 2] [0, 2] (by simp) (by simp)).2.2.2.2.2.1]
    norm_num [_mape, fmean, fsum, fadd, fdiv, fmul, fabs, rdiv,
      List.zipWith]

/-- Witness for C5's general part at `truth = [1]`, `pred = [3]`. -/
theorem mape_field_formula_app :
    fieldOf (eval_metric [1] [3]) "MAPE" = some (mape_spec [1] [3]) :=
  mape_field_formula.1 [1] [3] (by simp) (by simp)

/-- C6: for equal-length non-empty inputs the SMAPE field equals
`(100/N) * Σ 2|pred_i - truth_i| / (|pred_i| + |truth_i|)` with no
zero-denominator filtering, and in particular at `truth = pred = [0, 2]`
the 0/0 term at index 0 propagates so the whole SMAPE field is NaN. -/
theorem smape_field_formula :
    (∀ t p : List ℝ, t.length = p.length → t.length ≠ 0 →
      fieldOf (eval_metric t p) "SMAPE" = some (smape_spec t p)) ∧
    fieldOf (eval_metric [0, 2] [0, 2]) "SMAPE" = some F.nan := by
  constructor
  · intro t p h1 h2
    exact (fieldOf_eval t p h1 h2).2.2.2.2.2.2
  · rw [(fieldOf_eval [0, 2] [0, 2] (by simp) (by simp)).2.2.2.2.2.2]
    norm_num [_smape, fsum, fadd, fdiv, fmul, rdiv, List.zipWith]

/-- Witness for C6's general part at `truth = [1]`, `pred = [3]`. -/
theorem smape_field_formula_app :
    fieldOf (eval_metric [1] [3]) "SMAPE" = some (smape_spec [1] [3]) :=
  smape_field_formula.1 [1] [3] (by simp) (by simp)

lemma foldl_fadd_zeros (l : List F) (h : ∀ v ∈ l, v = F.fin 0) :
    ∀ c : ℝ, l.foldl fadd (F.fin c) = F.fin c := by
  induction l with
  | nil => intro c; rfl
  | cons v tl ih =>
    intro c
    have hv := h v (List.mem_cons_self v tl)
    subst hv
    show List.foldl fadd (fadd (F.fin c) (F.fin 0)) tl = F.fin c
    have : fadd (F.fin c) (F.fin 0) = F.fin c := by simp [fadd]
    rw [this]
    exact ih (fun w hw => h w (List.mem_cons_of_mem _ hw)) c

lemma fsum_zeros (l : List F) (h : ∀ v ∈ l, v = F.fin 0) :
    fsum l = F.fin 0 :=
  foldl_fadd_zeros l h 0

lemma two_le_length_of_two_mem {x : List ℝ} {a b : ℝ} (ha : a ∈ x)
    (hb : b ∈ x) (hab : a ≠ b) : 2 ≤ x.length := by
  rcases x with _ | ⟨c, _ | ⟨d, tl⟩⟩
  · simp at ha
  · simp at ha hb
    exact absurd (ha.trans hb.symm) hab
  · simp [List.length_cons]

lemma zip_self_filter_nonneg (x : List ℝ) (hpos : ∀ a ∈ x, 0 ≤ a) :
    (x.zip x).filter (fun q => decide (0 ≤ q.1) && decide (0 ≤ q.2)) =
      x.map (fun a => (a, a)) := by
  have hzip : x.zip x = x.map (fun a => (a, a)) := by
    rw [List.zip_eq_zipWith, List.zipWith_same]
  rw [hzip]
  refine List.filter_eq_self.mpr ?_
  intro q hq
  rcases List.mem_map.mp hq with ⟨a, ha, rfl⟩
  simp [decide_eq_true_eq, hpos a ha]

lemma fdiv_fin_fin (a b : ℝ) : fdiv (F.fin a) (F.fin b) = rdiv a b := rfl

lemma fmul_fin_fin (a b : ℝ) : fmul (F.fin a) (F.fin b) = F.fin (a * b) := rfl

/-- C7: evaluating any sequence against itself — all elements non-negative
and nonzero, with at least two distinct values — gives a perfect record:
R2 = 1 and MAE, MSE, RMSE, RMSLE, MAPE, SMAPE all 0. -/
theorem eval_metric_self_perfect (x : List ℝ) (hpos : ∀ a ∈ x, 0 ≤ a)
    (hnz : ∀ a ∈ x, a ≠ 0) (hdist : ∃ a ∈ x, ∃ b ∈ x, a ≠ b) :
    fieldOf (eval_metric x x) "R2" = some (F.fin 1) ∧
    fieldOf (eval_metric x x) "MAE" = some (F.fin 0) ∧
    fieldOf (eval_metric x x) "MSE" = some (F.fin 0) ∧
    fieldOf (eval_metric x x) "RMSE" = some (F.fin 0) ∧
    fieldOf (eval_metric x x) "RMSLE" = some (F.fin 0) ∧
    fieldOf (eval_metric x x) "MAPE" = some (F.fin 0) ∧
    fieldOf (eval_metric x x) "SMAPE" = some (F.fin 0) := by
  rcases hdist with ⟨a, ha, b, hb, hab⟩
  have hlen2 : 2 ≤ x.length := two_le_length_of_two_mem ha hb hab
  have h2 : x.length ≠ 0 := by omega
  have hfields := fieldOf_eval x x rfl h2
  have hmse0 : (List.zipWith (fun a b => (a - b) ^ 2) x x).sum = 0 := by
    rw [List.zipWith_same]
    exact List.sum_eq_zero (by
      intro v hv
      rcases List.mem_map.mp hv with ⟨c, _, rfl⟩
      ring)
  refine ⟨?_, ?_, ?_, ?_, ?_, ?_, ?_⟩
  · rw [hfields.1]
    unfold r2_score
    rw [if_neg (by omega)]
    simp only [hmse0, if_pos rfl, if_true]
  · rw [hfields.2.1]
    unfold mean_absolute_error
    rw [List.zipWith_same]
    rw [List.sum_eq_zero (by
      intro v hv
      rcases List.mem_map.mp hv with ⟨c, _, rfl⟩
      simp), zero_div]
  · rw [hfields.2.2.1]
    unfold mean_squared_error
    simp only [hmse0, zero_div, if_true]
  · rw [hfields.2.2.2.1]
    unfold mean_squared_error
    simp only [hmse0, zero_div, if_false, Bool.false_eq_true, Real.sqrt_zero]
  · rw [hfields.2.2.2.2.1]
    unfold rmsleVal
    rw [zip_self_filter_nonneg x hpos]
    have hlenx : (x.map (fun a => (a, a))).length = x.length :=
      List.length_map _ _
    rw [if_pos (by simpa [hlenx] using h2)]
    have hfst : (x.map (fun a => (a, a))).map Prod.fst = x := by
      rw [List.map_map]
      exact List.map_id x
    have hsnd : (x.map (fun a => (a, a))).map Prod.snd = x := by
      rw [List.map_map]
      exact List.map_id x
    rw [hfst, hsnd, List.zipWith_same,
      List.sum_eq_zero (by
        intro v hv
        rcases List.mem_map.mp hv with ⟨c, _, rfl⟩
        ring), zero_div, Real.sqrt_zero]
  · rw [hfields.2.2.2.2.2.1]
    unfold _mape fmean
    rw [List.zipWith_same,
      fsum_zeros _ (by
        intro v hv
        rcases List.mem_map.mp hv with ⟨c, hc, rfl⟩
        have : rdiv (c - c) c = F.fin 0 := by
          unfold rdiv
          rw [if_neg (hnz c hc), sub_self, zero_div]
        rw [this]
        simp [fabs])]
    rw [fdiv_fin_fin]
    set n := (List.map (fun a => fabs (rdiv (a - a) a)) x).length with hdefn
    have hn : (n : ℝ) ≠ 0 := by
      rw [hdefn, List.length_map]
      exact_mod_cast h2
    have hr : rdiv 0 (n : ℝ) = F.fin 0 := by
      unfold rdiv
      rw [if_neg hn, zero_div]
    rw [hr, fmul_fin_fin, zero_mul]
  · rw [hfields.2.2.2.2.2.2]
    unfold _smape
    rw [List.zipWith_same,
      fsum_zeros _ (by
        intro v hv
        rcases List.mem_map.mp hv with ⟨c, hc, rfl⟩
        have hd : |c| + |c| ≠ 0 := by
          have := hnz c hc
          positivity
        unfold rdiv
        rw [if_neg hd]
        simp)]
    rw [fmul_fin_fin, mul_zero]

/-- Witness for C7 at `x = [1, 2, 3]`: the spec's perfect-score example. -/
theorem eval_metric_self_perfect_app :
    fieldOf (eval_metric [1, 2, 3] [1, 2, 3]) "R2" = some (F.fin 1) ∧
    fieldOf (eval_metric [1, 2, 3] [1, 2, 3]) "MAE" = some (F.fin 0) ∧
    fieldOf (eval_metric [1, 2, 3] [1, 2, 3]) "MSE" = some (F.fin 0) ∧
    fieldOf (eval_metric [1, 2, 3] [1, 2, 3]) "RMSE" = some (F.fin 0) ∧
    fieldOf (eval_metric [1, 2, 3] [1, 2, 3]) "RMSLE" = some (F.fin 0) ∧
    fieldOf (eval_metric [1, 2, 3] [1, 2, 3]) "MAPE" = some (F.fin 0) ∧
    fieldOf (eval_metric [1, 2, 3] [1, 2, 3]) "SMAPE" = some (F.fin 0) :=
  eval_metric_self_perfect [1, 2, 3] (by norm_num) (by norm_num)
    ⟨1, by norm_num, 2, by norm_num, by norm_num⟩

/-- C8: for equal-length non-empty inputs MAE is the mean of
`|truth_i - pred_i|`, MSE the mean of `(truth_i - pred_i)²`, and RMSE the
square root of that same mean; at `truth = [1,2,3]`, `pred = [4,5,6]` this
gives MAE = 3, MSE = 9, RMSE = 3, and the R2 field is a negative number. -/
theorem mae_mse_rmse_formulas :
    (∀ t p : List ℝ, t.length = p.length → t.length ≠ 0 →
      fieldOf (eval_metric t p) "MAE" = some (F.fin
        ((List.zipWith (fun a b => |a - b|) t p).sum / (t.length : ℝ))) ∧
      fieldOf (eval_metric t p) "MSE" = some (F.fin
        ((List.zipWith (fun a b => (a - b) ^ 2) t p).sum / (t.length : ℝ))) ∧
      fieldOf (eval_metric t p) "RMSE" = some (F.fin (Real.sqrt
        ((List.zipWith (fun a b => (a - b) ^ 2) t p).sum / (t.length : ℝ))))) ∧
    (fieldOf (eval_metric [1, 2, 3] [4, 5, 6]) "MAE" = some (F.fin 3) ∧
     fieldOf (eval_metric [1, 2, 3] [4, 5, 6]) "MSE" = some (F.fin 9) ∧
     fieldOf (eval_metric [1, 2, 3] [4, 5, 6]) "RMSE" = some (F.fin 3) ∧
     fieldOf (eval_metric [1, 2, 3] [4, 5, 6]) "R2" =
       some (F.fin (1 - 27 / 2)) ∧ (1 : ℝ) - 27 / 2 < 0) := by
  have hgen : ∀ t p : List ℝ, t.length = p.length → t.length ≠ 0 →
      fieldOf (eval_metric t p) "MAE" = some (F.fin
        ((List.zipWith (fun a b => |a - b|) t p).sum / (t.length : ℝ))) ∧
      fieldOf (eval_metric t p) "MSE" = some (F.fin
        ((List.zipWith (fun a b => (a - b) ^ 2) t p).sum / (t.length : ℝ))) ∧
      fieldOf (eval_metric t p) "RMSE" = some (F.fin (Real.sqrt
        ((List.zipWith (fun a b => (a - b) ^ 2) t p).sum / (t.length : ℝ)))) := by
    intro t p h1 h2
    have hf := fieldOf_eval t p h1 h2
    exact ⟨hf.2.1, hf.2.2.1, hf.2.2.2.1⟩
  refine ⟨hgen, ?_, ?_, ?_, ?_, by norm_num⟩
  · rw [(hgen [1, 2, 3] [4, 5, 6] (by simp) (by simp)).1]
    norm_num [List.zipWith, abs_of_nonpos]
  · rw [(hgen [1, 2, 3] [4, 5, 6] (by simp) (by simp)).2.1]
    norm_num [List.zipWith]
  · rw [(hgen [1, 2, 3] [4, 5, 6] (by simp) (by simp)).2.2]
    have h9 : ((List.zipWith (fun a b => (a - b) ^ 2)
        [(1 : ℝ), 2, 3] [4, 5, 6]).sum / (([(1 : ℝ), 2, 3].length) : ℝ)) = 9 := by
      norm_num [List.zipWith]
    rw [h9, show (9 : ℝ) = 3 ^ 2 by norm_num,
      Real.sqrt_sq (by norm_num : (0 : ℝ) ≤ 3)]
  · rw [(fieldOf_eval [1, 2, 3] [4, 5, 6] (by simp) (by simp)).1]
    norm_num [r2_score, List.zipWith]

/-- Witness for C8's general part at `truth = [1]`, `pred = [3]`. -/
theorem mae_mse_rmse_formulas_app :
    fieldOf (eval_metric [1] [3]) "MAE" = some (F.fin
      ((List.zipWith (fun a b => |a - b|) [(1 : ℝ)] [(3 : ℝ)]).sum /
        (([(1 : ℝ)].length) : ℝ))) ∧
    fieldOf (eval_metric [1] [3]) "MSE" = some (F.fin
      ((List.zipWith (fun a b => (a - b) ^ 2) [(1 : ℝ)] [(3 : ℝ)]).sum /
        (([(1 : ℝ)].length) : ℝ))) ∧
    fieldOf (eval_metric [1] [3]) "RMSE" = some (F.fin (Real.sqrt
      ((List.zipWith (fun a b => (a - b) ^ 2) [(1 : ℝ)] [(3 : ℝ)]).sum /
        (([(1 : ℝ)].length) : ℝ)))) :=
  mae_mse_rmse_formulas.1 [1] [3] (by simp) (by simp)

/-- Value class of the error metrics: NaN, `+∞`, or a non-negative finite
value — never a negative number and never `-∞`. -/
def NNC (v : F) : Prop :=
  v = F.nan ∨ v = F.inf ∨ ∃ x, v = F.fin x ∧ 0 ≤ x

lemma NNC_fadd {u v : F} (hu : NNC u) (hv : NNC v) : NNC (fadd u v) := by
  rcases hu with rfl | rfl | ⟨x, rfl, hx⟩ <;>
    rcases hv with rfl | rfl | ⟨y, rfl, hy⟩
  all_goals simp [fadd, NNC]
  positivity

lemma NNC_foldl {l : List F} (h : ∀ v ∈ l, NNC v) :
    ∀ {acc : F}, NNC acc → NNC (l.foldl fadd acc) := by
  induction l with
  | nil => intro acc hacc; exact hacc
  | cons v tl ih =>
    intro acc hacc
    exact ih (fun w hw => h w (List.mem_cons_of_mem _ hw))
      (NNC_fadd hacc (h v (List.mem_cons_self v tl)))

lemma NNC_fsum {l : List F} (h : ∀ v ∈ l, NNC v) : NNC (fsum l) :=
  NNC_foldl h (Or.inr (Or.inr ⟨0, rfl, le_refl 0⟩))

lemma NNC_fabs (v : F) : NNC (fabs v) := by
  cases v with
  | fin x => exact Or.inr (Or.inr ⟨|x|, rfl, abs_nonneg x⟩)
  | inf => exact Or.inr (Or.inl rfl)
  | ninf => exact Or.inr (Or.inl rfl)
  | nan => exact Or.inl rfl

lemma NNC_rdiv {a b : ℝ} (ha : 0 ≤ a) (hb : 0 ≤ b) : NNC (rdiv a b) := by
  unfold rdiv
  by_cases hb0 : b = 0
  · rw [if_pos hb0]
    by_cases ha0 : a = 0
    · rw [if_pos ha0]
      exact Or.inl rfl
    · rw [if_neg ha0, if_pos (lt_of_le_of_ne ha (Ne.symm ha0))]
      exact Or.inr (Or.inl rfl)
  · rw [if_neg hb0]
    exact Or.inr (Or.inr ⟨a / b, rfl, by positivity⟩)

lemma NNC_fdiv_fin {v : F} (hv : NNC v) {n : ℝ} (hn : 0 ≤ n) :
    NNC (fdiv v (F.fin n)) := by
  rcases hv with rfl | rfl | ⟨x, rfl, hx⟩
  · exact Or.inl rfl
  · show NNC (if n < 0 then F.ninf else F.inf)
    rw [if_neg (not_lt.mpr hn)]
    exact Or.inr (Or.inl rfl)
  · exact NNC_rdiv hx hn

lemma NNC_fmul_fin_right {v : F} (hv : NNC v) {c : ℝ} (hc : 0 ≤ c) :
    NNC (fmul v (F.fin c)) := by
  rcases hv with rfl | rfl | ⟨x, rfl, hx⟩
  · exact Or.inl rfl
  · show NNC (if c = 0 then F.nan else if 0 < c then F.inf else F.ninf)
    by_cases hc0 : c = 0
    · rw [if_pos hc0]
      exact Or.inl rfl
    · rw [if_neg hc0, if_pos (lt_of_le_of_ne hc (Ne.symm hc0))]
      exact Or.inr (Or.inl rfl)
  · exact Or.inr (Or.inr ⟨x * c, rfl, by positivity⟩)

lemma NNC_fmul_fin_left {v : F} (hv : NNC v) {c : ℝ} (hc : 0 ≤ c) :
    NNC (fmul (F.fin c) v) := by
  rcases hv with rfl | rfl | ⟨x, rfl, hx⟩
  · exact Or.inl rfl
  · show NNC (if c = 0 then F.nan else if 0 < c then F.inf else F.ninf)
    by_cases hc0 : c = 0
    · rw [if_pos hc0]
      exact Or.inl rfl
    · rw [if_neg hc0, if_pos (lt_of_le_of_ne hc (Ne.symm hc0))]
      exact Or.inr (Or.inl rfl)
  · exact Or.inr (Or.inr ⟨c * x, rfl, by positivity⟩)

lemma forall_mem_zipWith {α : Type} (f : ℝ → ℝ → α) (P : α → Prop)
    (hf : ∀ a b, P (f a b)) :
    ∀ (t p : List ℝ), ∀ v ∈ List.zipWith f t p, P v := by
  intro t
  induction t with
  | nil => intro p v hv; simp at hv
  | cons a tl ih =>
    intro p v hv
    cases p with
    | nil => simp at hv
    | cons b pl =>
      rcases List.mem_cons.mp hv with rfl | hv'
      · exact hf a b
      · exact ih pl v hv'

lemma sum_zipWith_nonneg (f : ℝ → ℝ → ℝ) (hf : ∀ a b, 0 ≤ f a b) :
    ∀ (t p : List ℝ), 0 ≤ (List.zipWith f t p).sum := by
  intro t p
  exact List.sum_nonneg (forall_mem_zipWith f (fun v => 0 ≤ v) hf t p)

lemma NNC_mape (t p : List ℝ) : NNC (_mape t p) := by
  unfold _mape fmean
  refine NNC_fmul_fin_right (NNC_fdiv_fin (NNC_fsum ?_) (Nat.cast_nonneg _))
    (by norm_num)
  exact forall_mem_zipWith _ NNC (fun a b => NNC_fabs (rdiv (a - b) a)) t p

lemma NNC_smape (t p : List ℝ) : NNC (_smape t p) := by
  unfold _smape
  refine NNC_fmul_fin_left (NNC_fsum ?_) (by positivity)
  exact forall_mem_zipWith _ NNC
    (fun a b => NNC_rdiv (by positivity) (by positivity)) t p

/-- C9: for equal-length non-empty (finite) inputs, MAE, MSE and RMSE are
non-negative finite values, RMSLE is NaN or a non-negative finite value,
and MAPE and SMAPE are each NaN, `+∞`, or a non-negative finite value —
none of the six error fields is ever negative (nor `-∞`). -/
theorem metric_fields_nonneg (t p : List ℝ) (h1 : t.length = p.length)
    (h2 : t.length ≠ 0) :
    (∃ v, fieldOf (eval_metric t p) "MAE" = some (F.fin v) ∧ 0 ≤ v) ∧
    (∃ v, fieldOf (eval_metric t p) "MSE" = some (F.fin v) ∧ 0 ≤ v) ∧
    (∃ v, fieldOf (eval_metric t p) "RMSE" = some (F.fin v) ∧ 0 ≤ v) ∧
    (fieldOf (eval_metric t p) "RMSLE" = some F.nan ∨
      ∃ v, fieldOf (eval_metric t p) "RMSLE" = some (F.fin v) ∧ 0 ≤ v) ∧
    (∃ w, fieldOf (eval_metric t p) "MAPE" = some w ∧ NNC w) ∧
    (∃ w, fieldOf (eval_metric t p) "SMAPE" = some w ∧ NNC w) := by
  have hf := fieldOf_eval t p h1 h2
  refine ⟨⟨mean_absolute_error t p, hf.2.1, ?_⟩,
    ⟨mean_squared_error t p true, hf.2.2.1, ?_⟩,
    ⟨mean_squared_error t p false, hf.2.2.2.1, ?_⟩, ?_,
    ⟨_mape t p, hf.2.2.2.2.2.1, NNC_mape t p⟩,
    ⟨_smape t p, hf.2.2.2.2.2.2, NNC_smape t p⟩⟩
  · unfold mean_absolute_error
    exact div_nonneg
      (sum_zipWith_nonneg _ (fun a b => abs_nonneg (a - b)) t p)
      (Nat.cast_nonneg _)
  · show 0 ≤ (List.zipWith (fun a b => (a - b) ^ 2) t p).sum / (t.length : ℝ)
    exact div_nonneg
      (sum_zipWith_nonneg _ (fun a b => sq_nonneg (a - b)) t p)
      (Nat.cast_nonneg _)
  · exact Real.sqrt_nonneg _
  · by_cases hmask : ((t.zip p).filter
        (fun q => decide (0 ≤ q.1) && decide (0 ≤ q.2))).length = 0
    · left
      rw [hf.2.2.2.2.1]
      unfold rmsleVal
      rw [if_neg (by simpa using hmask)]
    · right
      rw [hf.2.2.2.2.1]
      unfold rmsleVal
      rw [if_pos hmask]
      exact ⟨_, rfl, Real.sqrt_nonneg _⟩

/-- Witness for C9 at `truth = [1]`, `pred = [2]`. -/
theorem metric_fields_nonneg_app :
    (∃ v, fieldOf (eval_metric [1] [2]) "MAE" = some (F.fin v) ∧ 0 ≤ v) ∧
    (∃ v, fieldOf (eval_metric [1] [2]) "MSE" = some (F.fin v) ∧ 0 ≤ v) ∧
    (∃ v, fieldOf (eval_metric [1] [2]) "RMSE" = some (F.fin v) ∧ 0 ≤ v) ∧
    (fieldOf (eval_metric [1] [2]) "RMSLE" = some F.nan ∨
      ∃ v, fieldOf (eval_metric [1] [2]) "RMSLE" = some (F.fin v) ∧ 0 ≤ v) ∧
    (∃ w, fieldOf (eval_metric [1] [2]) "MAPE" = some w ∧ NNC w) ∧
    (∃ w, fieldOf (eval_metric [1] [2]) "SMAPE" = some w ∧ NNC w) :=
  metric_fields_nonneg [1] [2] (by simp) (by simp)
